import Mathlib

/-!
Verification of the listing-sniper trading bot against its specification.

The development shallowly embeds the Python sources:
  * `trading/position.py`  — position ledger and P&L bookkeeping,
  * `trading/sniper.py`    — the IOC ladder execution engine,
  * `bybit/websocket.py`   — clock-offset estimation and the stream
    connection / subscription state machine.

Python floats are modelled as exact rationals (`ℚ`), millisecond clock
values as integers (`ℤ`).  Stateful components become explicit state
passing; the event-driven parts become step functions over small state
types, driven by explicit event/input sequences.
-/

/-! ## Definitions -/

/-- Log severity levels of `utils/logger` (`log_debug`/`log_info`/`log_warn`/
`log_error`).  Only the level matters for the properties below, so log calls
are modelled as emitted levels. -/
inductive LogLevel
  | debug
  | info
  | warn
  | error
deriving DecidableEq, Repr

/-- Embedding of the `Position` dataclass of `trading/position.py`. -/
structure Position where
  symbol : String
  side : String
  qty : ℚ
  entry_price : ℚ
  entry_value : ℚ
  entry_time : ℚ
  trailing_set : Bool
deriving DecidableEq, Repr

/-- Embedding of the `TradeResult` dataclass of `trading/position.py`. -/
structure TradeResult where
  symbol : String
  side : String
  qty : ℚ
  entry_price : ℚ
  exit_price : ℚ
  entry_time : ℚ
  exit_time : ℚ
  entry_value : ℚ
  exit_value : ℚ
  gross_pnl : ℚ
  fees : ℚ
  net_pnl : ℚ
  roi_pct : ℚ
  duration_sec : ℚ
deriving DecidableEq, Repr

/-- Lookup in a Python `dict` keyed by symbol (`self.positions[symbol]` /
`self.positions.get(symbol)`), modelled as an insertion-ordered association
list with unique keys. -/
def dictGet : List (String × Position) → String → Option Position
  | [], _ => none
  | (k2, v) :: rest, k => if k2 = k then some v else dictGet rest k

/-- Python `dict` assignment `self.positions[symbol] = pos`: replaces the
value of an existing key in place, otherwise appends a new entry. -/
def dictSet : List (String × Position) → String → Position → List (String × Position)
  | [], k, v => [(k, v)]
  | (k2, v2) :: rest, k, v =>
    if k2 = k then (k, v) :: rest else (k2, v2) :: dictSet rest k v

/-- Python `del self.positions[symbol]`: removes the entry of a key. -/
def dictErase : List (String × Position) → String → List (String × Position)
  | [], _ => []
  | (k2, v2) :: rest, k => if k2 = k then rest else (k2, v2) :: dictErase rest k

/-- Mutable state of `PositionManager`: the open-position map and the
append-only journal of completed trades. -/
structure PMState where
  positions : List (String × Position)
  completed_trades : List TradeResult
deriving DecidableEq, Repr

/-- The `Position` built by `PositionManager.add_position`. -/
def mkPosition (symbol side : String) (qty entry_price now : ℚ) : Position :=
  { symbol := symbol, side := side, qty := qty, entry_price := entry_price,
    entry_value := qty * entry_price, entry_time := now, trailing_set := false }

/-- Embedding of `PositionManager.add_position`.  The second component is the
list of log levels emitted by the call (the code logs exactly one
`log_info` line and performs the dict assignment unconditionally). -/
def add_position (s : PMState) (symbol side : String) (qty entry_price now : ℚ) :
    PMState × List LogLevel :=
  ({ s with positions := dictSet s.positions symbol (mkPosition symbol side qty entry_price now) },
   [LogLevel.info])

/-- The `TradeResult` computed inside `PositionManager._handle_exit` for a
tracked position `pos`, exit quantity `qty`, exit price `exit_price`, exit
time `exit_time` and fee configuration `taker_pct` (`config.fees.taker_pct`).
Each line mirrors the corresponding Python statement. -/
def handle_exit_trade (pos : Position) (qty exit_price exit_time taker_pct : ℚ) : TradeResult :=
  let exit_value := qty * exit_price
  let entry_value := qty * pos.entry_price
  let gross_pnl := exit_value - entry_value
  let taker_fee := taker_pct / 100
  let fees := (entry_value + exit_value) * taker_fee
  let net_pnl := gross_pnl - fees
  let roi_pct := if 0 < entry_value then net_pnl / entry_value * 100 else 0
  { symbol := pos.symbol, side := pos.side, qty := qty, entry_price := pos.entry_price,
    exit_price := exit_price, entry_time := pos.entry_time, exit_time := exit_time,
    entry_value := entry_value, exit_value := exit_value, gross_pnl := gross_pnl,
    fees := fees, net_pnl := net_pnl, roi_pct := roi_pct,
    duration_sec := exit_time - pos.entry_time }

/-- Embedding of `PositionManager._handle_exit`: when the symbol is tracked,
the trade result is appended to the journal and the position removed;
otherwise the call returns immediately. -/
def handle_exit (s : PMState) (symbol : String) (qty exit_price exit_time taker_pct : ℚ) :
    PMState × Option TradeResult :=
  match dictGet s.positions symbol with
  | none => (s, none)
  | some pos =>
    let trade := handle_exit_trade pos qty exit_price exit_time taker_pct
    ({ positions := dictErase s.positions symbol,
       completed_trades := s.completed_trades ++ [trade] }, some trade)

/-- Result record of `PositionManager.get_total_pnl`. -/
structure PnlSummary where
  total_trades : ℕ
  winners : ℕ
  losers : ℕ
  win_rate : ℚ
  total_net_pnl : ℚ
  total_gross_pnl : ℚ
  total_fees : ℚ
deriving DecidableEq, Repr

/-- Embedding of `PositionManager.get_total_pnl`: winners are trades with
strictly positive net P&L, losers those with net P&L `<= 0`, and the win
rate falls back to `0` for an empty journal. -/
def get_total_pnl (trades : List TradeResult) : PnlSummary :=
  { total_trades := trades.length,
    winners := (trades.filter (fun t => decide (0 < t.net_pnl))).length,
    losers := (trades.filter (fun t => decide (t.net_pnl ≤ 0))).length,
    win_rate := if trades.isEmpty then 0 else
      ((trades.filter (fun t => decide (0 < t.net_pnl))).length : ℚ) / trades.length * 100,
    total_net_pnl := (trades.map TradeResult.net_pnl).sum,
    total_gross_pnl := (trades.map TradeResult.gross_pnl).sum,
    total_fees := (trades.map TradeResult.fees).sum }

/-- Gross P&L as worded by the spec: `(exitValue − entryValue)` signed by the
side of the position.  Stated separately from the code so the two can be
compared; the code's `_handle_exit` uses `exit_value - entry_value`
unconditionally. -/
def specGrossPnl (side : String) (entry_value exit_value : ℚ) : ℚ :=
  if side = "Buy" then exit_value - entry_value else entry_value - exit_value

/-- Sell-side position used to refute the side-signing part of claim C1. -/
def posSellC1 : Position := mkPosition "FOOUSDT" "Sell" 1 10 0

/-- Buy position (entry 10, qty 5) for the C1 witness, scenario C of the spec. -/
def posC1w : Position := mkPosition "BARUSDT" "Buy" 5 10 0

/-- Ledger state holding `posC1w`. -/
def pmC1w : PMState := ⟨[("BARUSDT", posC1w)], []⟩

/-- Trade produced by exiting `posC1w` at price 10.5 with taker fee 0.055%. -/
def tC1w : TradeResult := handle_exit_trade posC1w 5 (21/2) 0 (11/200)

/-- Ledger state after a first `add_position` for symbol `AUSDT`. -/
def pmC7a : PMState := (add_position ⟨[], []⟩ "AUSDT" "Buy" 1 10 0).1

/-- Trade with all fields zero, in particular `net_pnl = 0`. -/
def tzC10 : TradeResult := ⟨"", "", 0, 0, 0, 0, 0, 0, 0, 0, 0, 0, 0, 0⟩

/-- Window update of the pong handler in `_on_private_message`: append the
new offset sample (`clock_offset_samples.append(offset)`) and evict the
oldest one (`pop(0)`) when more than 10 are held. -/
def pushSample (w : List ℤ) (x : ℤ) : List ℤ :=
  let samples := w ++ [x]
  if 10 < samples.length then samples.tail else samples

/-- Python `sorted` on the sample window: ascending sort.  On integers the
ascending permutation of a list is unique, so any sorting algorithm is an
exact model. -/
def sortInts (l : List ℤ) : List ℤ := l.insertionSort (fun a b => a ≤ b)

/-- Clock-sync portion of the pong branch of `_on_private_message`: update
the FIFO window and store `sorted_samples[len(sorted_samples) // 2]` into
`clock_offset_ms`. -/
def clockStep (st : List ℤ × ℤ) (x : ℤ) : List ℤ × ℤ :=
  let window := pushSample st.1 x
  (window, (sortInts window).getD (window.length / 2) 0)

/-- Feeding a whole sequence of accepted samples to the pong handler,
starting from the initial state (`clock_offset_samples = []`,
`clock_offset_ms = 0`). -/
def clockRun (xs : List ℤ) : List ℤ × ℤ := xs.foldl clockStep ([], 0)

/-- Median as used by the code and spec: the element at index
`length / 2` of the ascending sort (`0` for an empty list, matching the
initial offset). -/
def medianInt (l : List ℤ) : ℤ := (sortInts l).getD (l.length / 2) 0

/-- Embedding of `get_bybit_time_ms`: local wall-clock milliseconds plus the
stored `clock_offset_ms`. -/
def get_bybit_time_ms (local_now_ms offset : ℤ) : ℤ := local_now_ms + offset

/-- Instrument filter values extracted by `execute_snipe` from the
instrument dict: `get_price_precision` (decimals of the tick size),
`get_qty_step`, `minOrderQty` and `minNotionalValue`. -/
structure Instrument where
  price_precision : ℕ
  qty_step : ℚ
  min_qty : ℚ
  min_notional : ℚ
deriving DecidableEq, Repr

/-- Embedding of `Sniper.round_qty`: whole-unit floor when the step is at
least 1, otherwise floor to a multiple of the step.  (Python raises
`ZeroDivisionError` for `step = 0`; instruments always carry a positive
step, and no claim exercises that case.) -/
def round_qty (qty step : ℚ) : ℚ :=
  if 1 ≤ step then ((⌊qty⌋ : ℤ) : ℚ) else ((⌊qty / step⌋ : ℤ) : ℚ) * step

/-- Embedding of `Sniper.round_price` composed with the `float(...)` reparse
in `execute_snipe`: the price rounded to `precision` decimal digits.
(Python's string formatting rounds ties half-to-even on the binary double;
no claim exercises a tie, so plain rounding is used.) -/
def round_price (price : ℚ) (precision : ℕ) : ℚ :=
  ((round (price * 10 ^ precision) : ℤ) : ℚ) / 10 ^ precision

/-- Environment of one iteration of the ladder loop: what the world outside
`execute_snipe` does during that iteration.  `ticker_ask` is the ask price
visible via the WS snapshot or the REST fallback (`none` when neither has
data; a non-positive value models a bad `ask1Price`); `ret_code` is the
exchange return code for the order placed in this iteration;
`fills` are the entries of `self.order_fills` carrying this iteration's
`order_link_id` at scan time, as `(cumExecQty, avgPrice)` pairs;
`place_order_raises` models `client.place_order` raising inside its
`try` block. -/
structure IterInput where
  ticker_ask : Option ℚ
  ret_code : ℤ
  fills : List (ℚ × ℚ)
  place_order_raises : Bool
deriving DecidableEq, Repr

/-- Ghost record of one `client.place_order` call: the `orders_sent` counter
embedded in its `orderLinkId` (`SNIPE_{symbol}_{orders_sent}_{time}`), the
submitted quantity and limit price, and the exchange return code. -/
structure OrderReq where
  link_idx : ℕ
  qty : ℚ
  price : ℚ
  ret_code : ℤ
deriving DecidableEq, Repr

/-- Loop state of `execute_snipe`: the accumulators of the while loop plus
the ghost log of submitted orders. -/
structure SnipeState where
  filled_value : ℚ
  filled_qty : ℚ
  orders_sent : ℕ
  ladder_idx : ℕ
  repeat_count : ℕ
  fills : List (ℚ × ℚ)
  orders : List OrderReq
deriving DecidableEq, Repr

/-- State at loop entry. -/
def initSnipeState : SnipeState := ⟨0, 0, 0, 0, 0, [], []⟩

/-- Why the ladder loop ended: budget reached (`filled_value >= budget`),
order cap reached, minimum-notional break, or a Python exception
propagating to the outer `except` (`IndexError` on an empty ladder list or
`ZeroDivisionError` on a zero limit price). -/
inductive StopReason
  | budgetFilled
  | orderCap
  | minNotional
  | raised
deriving DecidableEq, Repr

/-- Outcome of one loop iteration body: leave the loop, or continue with an
updated state (the no-ticker and bad-ask branches continue unchanged after
their short sleep, mirroring `continue`). -/
inductive IterOut
  | stop (reason : StopReason)
  | next (s : SnipeState)
deriving DecidableEq, Repr

/-- Slippage fraction for the current ladder index:
`ladder_steps[ladder_idx] if ladder_idx < len(ladder_steps) else
ladder_steps[-1]`. -/
def ladderSlippage (steps : List ℚ) (idx : ℕ) : ℚ :=
  if idx < steps.length then steps.getD idx 0 else steps.getLastD 0

/-- Promotion of the budget-derived quantity up to the instrument minimum:
`if qty < min_qty: qty = min_qty`. -/
def promoteQty (q min_qty : ℚ) : ℚ :=
  if q < min_qty then min_qty else q

/-- The `client.place_order` call with its surrounding bookkeeping: the
order counter is incremented and the order logged whatever the exchange
return code; an exception raised by the call itself (caught by the inner
`try`) skips the increment. -/
def placeOrder (s : SnipeState) (qty price : ℚ) (inp : IterInput) : SnipeState :=
  if inp.place_order_raises then s
  else { s with
    orders_sent := s.orders_sent + 1,
    orders := s.orders ++ [⟨s.orders_sent, qty, price, inp.ret_code⟩] }

/-- The fill re-scan after the pacing wait: every entry of `order_fills`
matching this iteration's link id with positive quantity and price is
accumulated into `filled_qty`/`filled_value` and appended to
`result.fills`. -/
def accumFills (s : SnipeState) (inp : IterInput) : SnipeState :=
  let good := inp.fills.filter (fun f : ℚ × ℚ => decide (0 < f.1) && decide (0 < f.2))
  { s with
    filled_qty := s.filled_qty + (good.map Prod.fst).sum,
    filled_value := s.filled_value + (good.map (fun f : ℚ × ℚ => f.1 * f.2)).sum,
    fills := s.fills ++ good }

/-- Ladder progression: every `repeat_per_step` orders, reset the repeat
counter and move to the next slippage index. -/
def ladderAdvance (repeat_per_step : ℕ) (s : SnipeState) : SnipeState :=
  if repeat_per_step ≤ s.repeat_count + 1 then
    { s with repeat_count := 0, ladder_idx := s.ladder_idx + 1 }
  else { s with repeat_count := s.repeat_count + 1 }

/-- One iteration of the while-loop body of `execute_snipe`, line by line:
read the ask, compute the slippage-adjusted limit price, derive the
quantity from the remaining budget (promoted to the instrument minimum),
break on the minimum-notional check, place the IOC order, accumulate
matching fills, and advance the ladder. -/
def snipeIter (budget : ℚ) (steps : List ℚ) (repeat_per_step : ℕ)
    (inst : Instrument) (s : SnipeState) (inp : IterInput) : IterOut :=
  match inp.ticker_ask with
  | none => IterOut.next s
  | some ask =>
    if ask ≤ 0 then IterOut.next s
    else if steps = [] then IterOut.stop StopReason.raised
    else
      let limit_price :=
        round_price (ask * (1 + ladderSlippage steps s.ladder_idx)) inst.price_precision
      if limit_price = 0 then IterOut.stop StopReason.raised
      else
        let qty :=
          promoteQty (round_qty ((budget - s.filled_value) / limit_price) inst.qty_step)
            inst.min_qty
        if qty * limit_price < inst.min_notional then IterOut.stop StopReason.minNotional
        else
          IterOut.next (ladderAdvance repeat_per_step (accumFills (placeOrder s qty limit_price inp) inp))

/-- The while loop of `execute_snipe`.  `env i` is the environment of the
`i`-th iteration; `fuel` bounds the number of iterations the model is
allowed to run (the Python loop has no such bound — `none` means the
loop is still running after `fuel` iterations). -/
def snipeLoop (budget : ℚ) (steps : List ℚ) (repeat_per_step max_orders : ℕ)
    (inst : Instrument) (env : ℕ → IterInput) :
    ℕ → SnipeState → ℕ → Option (SnipeState × StopReason)
  | _, _, 0 => none
  | i, s, fuel + 1 =>
    if budget ≤ s.filled_value then some (s, StopReason.budgetFilled)
    else if max_orders ≤ s.orders_sent then some (s, StopReason.orderCap)
    else
      match snipeIter budget steps repeat_per_step inst s (env i) with
      | IterOut.stop r => some (s, r)
      | IterOut.next s2 =>
        snipeLoop budget steps repeat_per_step max_orders inst env (i + 1) s2 fuel

/-- Embedding of the `SnipeResult` dataclass. -/
structure SnipeResult where
  symbol : String
  success : Bool
  filled_qty : ℚ
  filled_value : ℚ
  avg_entry : ℚ
  orders_sent : ℕ
  fills : List (ℚ × ℚ)
  error : String
deriving DecidableEq, Repr

/-- Result assembly after the loop.  On an in-loop exception the outer
`except` returns the result object with its default zero fields (only
`fills`, mutated during the loop, and `error` are populated; the model
uses a fixed non-empty placeholder message).  Otherwise the accumulators
are copied, `success` is set exactly when `filled_qty > 0`, and
`avg_entry` is the volume-weighted `filled_value / filled_qty`. -/
def mkSnipeResult (symbol : String) (out : SnipeState × StopReason) : SnipeResult :=
  if out.2 = StopReason.raised then
    { symbol := symbol, success := false, filled_qty := 0, filled_value := 0,
      avg_entry := 0, orders_sent := 0, fills := out.1.fills, error := "exception" }
  else
    { symbol := symbol,
      success := decide (0 < out.1.filled_qty),
      filled_qty := out.1.filled_qty,
      filled_value := out.1.filled_value,
      avg_entry := if 0 < out.1.filled_qty then out.1.filled_value / out.1.filled_qty else 0,
      orders_sent := out.1.orders_sent,
      fills := out.1.fills,
      error := "" }

/-- Embedding of `Sniper.execute_snipe` as a whole: run the ladder loop from
the initial accumulators and assemble the `SnipeResult`. -/
def execute_snipe (symbol : String) (budget : ℚ) (steps : List ℚ)
    (repeat_per_step max_orders : ℕ) (inst : Instrument) (env : ℕ → IterInput)
    (fuel : ℕ) : Option SnipeResult :=
  (snipeLoop budget steps repeat_per_step max_orders inst env 0 initSnipeState fuel).map
    (mkSnipeResult symbol)

/-- No-fill environment used by the C3 and C6 witnesses: every iteration
sees ask price 1, a success return code, and no fills. -/
def envB : ℕ → IterInput := fun _ => ⟨some 1, 0, [], false⟩

/-- Instrument of the concrete scenarios: tick size 0.0001 (4 decimals),
quantity step 1, minimum quantity 1, minimum notional 5. -/
def instA : Instrument := ⟨4, 1, 1, 5⟩

/-- Result of the C3 witness run: budget 100, single slippage step 0.05%,
order cap 2, no fills ever. -/
def rB3 : SnipeResult := ⟨"NEWUSDT", false, 0, 0, 0, 2, [], ""⟩

/-- Environment of the C4 witness: ask price 1000 with budget 100, so the
budget-derived quantity floors to 0 and is promoted to the minimum. -/
def envC4 : ℕ → IterInput := fun _ => ⟨some 1000, 0, [], false⟩

/-- The single order of the C4 witness run: promoted quantity 1 at limit
price 1000.5. -/
def ordC4 : OrderReq := ⟨0, 1, 2001/2, 0⟩

/-- Final state of the C4 witness run (order cap 1). -/
def outC4 : SnipeState × StopReason :=
  (⟨0, 0, 1, 0, 1, [], [ordC4]⟩, StopReason.orderCap)

/-- Environment of spec scenario A: ask 1.00 forever; the first order is
fully filled at its limit price (the quantity the code actually submits,
99, at 1.0005), later orders see no fills. -/
def envA : ℕ → IterInput := fun i =>
  if i = 0 then ⟨some 1, 0, [(99, 2001/2000)], false⟩ else ⟨some 1, 0, [], false⟩

/-- Environment in which ticker data never becomes available (WS snapshot
empty and REST fallback failing, forever). -/
def envNoTick : ℕ → IterInput := fun _ => ⟨none, 0, [], false⟩

/-- Erase the recorded exchange return code of a logged order. -/
def scrubOrder (o : OrderReq) : OrderReq := ⟨o.link_idx, o.qty, o.price, 0⟩

/-- Erase the recorded return codes of a loop state's order log. -/
def scrubState (s : SnipeState) : SnipeState := { s with orders := s.orders.map scrubOrder }

/-- Erase the recorded return codes of an iteration outcome. -/
def scrubIter : IterOut → IterOut
  | IterOut.stop r => IterOut.stop r
  | IterOut.next s => IterOut.next (scrubState s)

/-- State after the C8 witness iteration: one rejected order (return code
10001) still logged and counted. -/
def s2Rej : SnipeState := ⟨0, 0, 1, 0, 1, [], [⟨0, 99, 2001/2000, 10001⟩]⟩

/-- Events driving `WebSocketManager`: socket `on_open` callbacks of the two
streams, the private auth acknowledgment frame, `on_close` callbacks
(which, while running, schedule a reconnect that ends in a new open), and
the `subscribe_public` / `subscribe_private` calls. -/
inductive WsEvent
  | openPub
  | openPriv
  | authAck (ok : Bool)
  | closePub
  | closePriv
  | subPubCall (topics : List String)
  | subPrivCall (topics : List String)
deriving DecidableEq, Repr

/-- Messages sent to the exchange by the manager (`ws.send`):
the signed auth request, and subscribe frames on either stream. -/
inductive WsOut
  | authReq
  | subPubMsg (topics : List String)
  | subPrivMsg (topics : List String)
deriving DecidableEq, Repr

/-- Connection flags and persisted subscription lists of
`WebSocketManager`. -/
structure WsState where
  public_connected : Bool
  private_connected : Bool
  private_authenticated : Bool
  public_subscriptions : List String
  private_subscriptions : List String
deriving DecidableEq, Repr

/-- Manager state at construction. -/
def wsInit : WsState := ⟨false, false, false, [], []⟩

/-- One event of the manager, with the messages it sends.  Mirrors the
handlers of `bybit/websocket.py`: the public `on_open` replays the full
persisted public subscription list; the private `on_open` only sends the
auth request; the subscription replay and clock-sync start of the private
stream happen in the auth-success branch of `_on_private_message`;
`on_close` clears the connected (and, for the private stream,
authenticated) flags; the `subscribe_*` calls extend the persisted lists
and send only the new topics, and only when connected
(resp. authenticated). -/
def wsStep (s : WsState) : WsEvent → WsState × List WsOut
  | WsEvent.openPub =>
    ({ s with public_connected := true },
     if s.public_subscriptions.isEmpty then [] else [WsOut.subPubMsg s.public_subscriptions])
  | WsEvent.openPriv =>
    ({ s with private_connected := true }, [WsOut.authReq])
  | WsEvent.authAck ok =>
    if ok then
      ({ s with private_authenticated := true },
       if s.private_subscriptions.isEmpty then []
       else [WsOut.subPrivMsg s.private_subscriptions])
    else (s, [])
  | WsEvent.closePub => ({ s with public_connected := false }, [])
  | WsEvent.closePriv =>
    ({ s with private_connected := false, private_authenticated := false }, [])
  | WsEvent.subPubCall ts =>
    ({ s with public_subscriptions := s.public_subscriptions ++ ts },
     if s.public_connected then [WsOut.subPubMsg ts] else [])
  | WsEvent.subPrivCall ts =>
    ({ s with private_subscriptions := s.private_subscriptions ++ ts },
     if s.private_authenticated then [WsOut.subPrivMsg ts] else [])

/-- Manager state after a sequence of events. -/
def wsRun (events : List WsEvent) : WsState :=
  events.foldl (fun s e => (wsStep s e).1) wsInit

/-- All topics ever passed to `subscribe_public`, in order. -/
def allPubTopics : List WsEvent → List String
  | [] => []
  | WsEvent.subPubCall ts :: es => ts ++ allPubTopics es
  | _ :: es => allPubTopics es

/-- All topics ever passed to `subscribe_private`, in order. -/
def allPrivTopics : List WsEvent → List String
  | [] => []
  | WsEvent.subPrivCall ts :: es => ts ++ allPrivTopics es
  | _ :: es => allPrivTopics es

/-- Whether an auth success was acknowledged and no private-stream close
happened since, scanning a history left to right from `b`. -/
def authAfter (b : Bool) : List WsEvent → Bool
  | [] => b
  | WsEvent.authAck true :: es => authAfter true es
  | WsEvent.closePriv :: es => authAfter false es
  | _ :: es => authAfter b es

/-- Authentication completed since the last private-stream close (from a
fresh manager). -/
def authSinceClose (events : List WsEvent) : Bool := authAfter false events

/-- Event history of the C9 witness: one public subscription, private
connect, auth success, one private subscription. -/
def eventsC9 : List WsEvent :=
  [WsEvent.subPubCall ["tickers.AUSDT"], WsEvent.openPriv, WsEvent.authAck true,
   WsEvent.subPrivCall ["order"]]

/-! ## Helper lemmas -/

/-- Membership in the key set after a dict assignment. -/
lemma mem_keys_dictSet (m : List (String × Position)) (k a : String) (v : Position) :
    a ∈ (dictSet m k v).map Prod.fst ↔ a ∈ m.map Prod.fst ∨ a = k := by
  induction m with
  | nil => simp [dictSet]
  | cons p rest ih =>
    obtain ⟨k2, v2⟩ := p
    by_cases h : k2 = k
    · subst h
      simp [dictSet]
      tauto
    · simp [dictSet, h, ih]
      tauto

/-- Dict assignment preserves uniqueness of keys. -/
lemma nodup_keys_dictSet (m : List (String × Position)) (k : String) (v : Position)
    (h : (m.map Prod.fst).Nodup) : ((dictSet m k v).map Prod.fst).Nodup := by
  induction m with
  | nil => simp [dictSet]
  | cons p rest ih =>
    obtain ⟨k2, v2⟩ := p
    simp only [List.map_cons, List.nodup_cons] at h
    by_cases hk : k2 = k
    · subst hk
      simp only [dictSet, if_true]
      simp only [List.map_cons, List.nodup_cons]
      exact h
    · simp only [dictSet, List.map_cons]
      rw [if_neg hk]
      simp only [List.map_cons, List.nodup_cons]
      refine ⟨?_, ih h.2⟩
      rw [mem_keys_dictSet]
      rintro (h2 | rfl)
      · exact h.1 h2
      · exact hk rfl

/-- Removal of a key yields a sublist of the original map. -/
lemma dictErase_sublist (m : List (String × Position)) (k : String) :
    List.Sublist (dictErase m k) m := by
  induction m with
  | nil => simp [dictErase]
  | cons p rest ih =>
    obtain ⟨k2, v2⟩ := p
    by_cases h : k2 = k
    · rw [dictErase, if_pos h]
      subst h
      exact List.sublist_cons_self (k2, v2) rest
    · rw [dictErase, if_neg h]
      exact ih.cons₂ (k2, v2)

/-- Removing a key preserves uniqueness of keys. -/
lemma nodup_keys_dictErase (m : List (String × Position)) (k : String)
    (h : (m.map Prod.fst).Nodup) : ((dictErase m k).map Prod.fst).Nodup :=
  List.Nodup.sublist ((dictErase_sublist m k).map Prod.fst) h

/-- Assigning a key makes it retrievable. -/
lemma dictGet_dictSet (m : List (String × Position)) (k : String) (v : Position) :
    dictGet (dictSet m k v) k = some v := by
  induction m with
  | nil => simp [dictSet, dictGet]
  | cons p rest ih =>
    obtain ⟨k2, v2⟩ := p
    by_cases h : k2 = k
    · simp [dictSet, dictGet, h]
    · simp [dictSet, dictGet, h, ih]

/-- Winner/loser filters split the completed-trade list exactly. -/
lemma length_filter_pos_add_nonpos (trades : List TradeResult) :
    (trades.filter (fun t => decide (0 < t.net_pnl))).length
      + (trades.filter (fun t => decide (t.net_pnl ≤ 0))).length = trades.length := by
  induction trades with
  | nil => rfl
  | cons t ts ih =>
    rcases lt_or_le 0 t.net_pnl with h | h
    · rw [List.filter_cons, List.filter_cons, if_pos (by simpa using h),
        if_neg (by simpa using not_le.mpr h)]
      simp only [List.length_cons]
      omega
    · rw [List.filter_cons, List.filter_cons, if_neg (by simpa using not_lt.mpr h),
        if_pos (by simpa using h)]
      simp only [List.length_cons]
      omega

/-- The append-and-evict update keeps exactly the last 10 samples. -/
lemma pushSample_rtake (l : List ℤ) (x : ℤ) :
    pushSample (l.rtake 10) x = (l ++ [x]).rtake 10 := by
  unfold pushSample
  rcases le_or_lt l.length 9 with h | h
  · have h1 : l.rtake 10 = l := by
      unfold List.rtake
      rw [Nat.sub_eq_zero_of_le (by omega), List.drop_zero]
    have h2 : (l ++ [x]).rtake 10 = l ++ [x] := by
      unfold List.rtake
      rw [Nat.sub_eq_zero_of_le (by simp [List.length_append]; omega), List.drop_zero]
    rw [h1, h2, if_neg]
    intro hc
    simp only [List.length_append, List.length_singleton] at hc
    omega
  · have hlen : (l.rtake 10).length = 10 := by
      unfold List.rtake
      rw [List.length_drop]
      omega
    have h10 : (l ++ [x]).rtake 10 = l.rtake 9 ++ [x] := List.rtake_concat_succ l 9 x
    have hne : l.rtake 10 ≠ [] := by
      intro hc
      rw [hc] at hlen
      simp at hlen
    obtain ⟨a, t, hat⟩ := List.exists_cons_of_ne_nil hne
    have h9 : (l.rtake 10).tail = l.rtake 9 := by
      unfold List.rtake
      rw [List.tail_drop]
      congr 1
      omega
    have ht : t = l.rtake 9 := by
      rw [← h9, hat]
      rfl
    rw [if_pos (by simp [List.length_append, hlen]), hat, h10]
    simp only [List.cons_append, List.tail_cons]
    rw [ht]

/-- Folding one more sample is one pong-handler step. -/
lemma clockRun_concat (ys : List ℤ) (x : ℤ) :
    clockRun (ys ++ [x]) = clockStep (clockRun ys) x := by
  unfold clockRun
  rw [List.foldl_append]
  rfl

/-- The sample window after any run is exactly the last 10 samples. -/
lemma clockRun_window (xs : List ℤ) : (clockRun xs).1 = xs.rtake 10 := by
  induction xs using List.reverseRecOn with
  | nil => rfl
  | append_singleton ys x ih =>
    rw [clockRun_concat]
    show pushSample (clockRun ys).1 x = (ys ++ [x]).rtake 10
    rw [ih, pushSample_rtake]

/-- Promotion never yields less than the minimum quantity. -/
lemma promoteQty_le (q m : ℚ) : m ≤ promoteQty q m := by
  unfold promoteQty
  split
  · exact le_refl m
  · rename_i h
    exact le_of_not_lt h

/-- The order counter and log are untouched by the fill re-scan. -/
lemma accumFills_orders (s : SnipeState) (inp : IterInput) :
    (accumFills s inp).orders = s.orders ∧
    (accumFills s inp).orders_sent = s.orders_sent := ⟨rfl, rfl⟩

/-- The order counter and log, and the fill accumulators, are untouched by
ladder progression. -/
lemma ladderAdvance_fields (rps : ℕ) (s : SnipeState) :
    (ladderAdvance rps s).orders = s.orders ∧
    (ladderAdvance rps s).orders_sent = s.orders_sent ∧
    (ladderAdvance rps s).filled_qty = s.filled_qty ∧
    (ladderAdvance rps s).filled_value = s.filled_value ∧
    (ladderAdvance rps s).fills = s.fills := by
  unfold ladderAdvance
  split <;> exact ⟨rfl, rfl, rfl, rfl, rfl⟩

/-- An order placement whose `place_order` call raises leaves the state
unchanged (the inner `except` only logs). -/
lemma placeOrder_raises (s : SnipeState) (qty price : ℚ) (inp : IterInput)
    (h : inp.place_order_raises = true) : placeOrder s qty price inp = s := by
  unfold placeOrder
  rw [h]
  simp

/-- An order placement that does not raise increments the counter and logs
the order under the old counter value. -/
lemma placeOrder_no_raise (s : SnipeState) (qty price : ℚ) (inp : IterInput)
    (h : inp.place_order_raises = false) :
    placeOrder s qty price inp = { s with
      orders_sent := s.orders_sent + 1,
      orders := s.orders ++ [⟨s.orders_sent, qty, price, inp.ret_code⟩] } := by
  unfold placeOrder
  rw [h]
  simp

/-- The fill accumulators are untouched by order placement. -/
lemma placeOrder_filled (s : SnipeState) (qty price : ℚ) (inp : IterInput) :
    (placeOrder s qty price inp).filled_qty = s.filled_qty ∧
    (placeOrder s qty price inp).filled_value = s.filled_value ∧
    (placeOrder s qty price inp).fills = s.fills := by
  unfold placeOrder
  split <;> exact ⟨rfl, rfl, rfl⟩

/-- A stopping iteration body stops only for the minimum-notional break or a
Python exception; the two loop-guard reasons come from the loop itself. -/
lemma snipeIter_stop_reason (b : ℚ) (st : List ℚ) (rps : ℕ) (inst : Instrument)
    (s : SnipeState) (inp : IterInput) (r : StopReason)
    (h : snipeIter b st rps inst s inp = IterOut.stop r) :
    r = StopReason.minNotional ∨ r = StopReason.raised := by
  obtain ⟨tick, rc0, fills0, raises0⟩ := inp
  cases tick with
  | none => simp [snipeIter] at h
  | some a =>
    simp only [snipeIter] at h
    split at h
    · simp at h
    · split at h
      · injection h with h
        exact Or.inr h.symm
      · split at h
        · injection h with h
          exact Or.inr h.symm
        · split at h
          · injection h with h
            exact Or.inl h.symm
          · simp at h

/-- Case analysis of a continuing iteration: either nothing was submitted
(no ticker, non-positive ask, or `place_order` raised) and the order
counter and log are unchanged, or exactly one order was submitted — the
counter incremented and the order logged with the old counter value as its
link id, a quantity at least the instrument minimum and a notional at
least the instrument minimum notional. -/
lemma snipeIter_next_cases (b : ℚ) (st : List ℚ) (rps : ℕ) (inst : Instrument)
    (s : SnipeState) (inp : IterInput) (s2 : SnipeState)
    (h : snipeIter b st rps inst s inp = IterOut.next s2) :
    (s2.orders_sent = s.orders_sent ∧ s2.orders = s.orders) ∨
    (s2.orders_sent = s.orders_sent + 1 ∧
      ∃ q p : ℚ, inst.min_qty ≤ q ∧ inst.min_notional ≤ q * p ∧
        s2.orders = s.orders ++ [⟨s.orders_sent, q, p, inp.ret_code⟩]) := by
  obtain ⟨tick, rc0, fills0, raises0⟩ := inp
  cases tick with
  | none =>
    simp only [snipeIter] at h
    injection h with h
    subst h
    exact Or.inl ⟨rfl, rfl⟩
  | some a =>
    simp only [snipeIter] at h
    generalize hL : round_price (a * (1 + ladderSlippage st s.ladder_idx)) inst.price_precision = L at h
    generalize hQ : promoteQty (round_qty ((b - s.filled_value) / L) inst.qty_step) inst.min_qty = Q at h
    split at h
    · injection h with h
      subst h
      exact Or.inl ⟨rfl, rfl⟩
    · split at h
      · simp at h
      · split at h
        · simp at h
        · split at h
          · simp at h
          · rename_i hnot
            injection h with h
            subst h
            cases raises0 with
            | true =>
              have hpo : placeOrder s Q L ⟨some a, rc0, fills0, true⟩ = s :=
                placeOrder_raises _ _ _ _ rfl
              refine Or.inl ⟨?_, ?_⟩
              · rw [(ladderAdvance_fields _ _).2.1, (accumFills_orders _ _).2, hpo]
              · rw [(ladderAdvance_fields _ _).1, (accumFills_orders _ _).1, hpo]
            | false =>
              have hpo := placeOrder_no_raise s Q L ⟨some a, rc0, fills0, false⟩ rfl
              refine Or.inr ⟨?_, Q, L, by rw [← hQ]; exact promoteQty_le _ _,
                not_lt.mp hnot, ?_⟩
              · rw [(ladderAdvance_fields _ _).2.1, (accumFills_orders _ _).2, hpo]
              · rw [(ladderAdvance_fields _ _).1, (accumFills_orders _ _).1, hpo]

/-- A continuing iteration with a live positive ask and a non-raising
`place_order` call always submits: the order counter advances by one. -/
lemma snipeIter_next_increment (b : ℚ) (st : List ℚ) (rps : ℕ) (inst : Instrument)
    (s : SnipeState) (inp : IterInput) (s2 : SnipeState)
    (h : snipeIter b st rps inst s inp = IterOut.next s2)
    (ha : ∃ a, inp.ticker_ask = some a ∧ 0 < a)
    (hr : inp.place_order_raises = false) :
    s2.orders_sent = s.orders_sent + 1 := by
  obtain ⟨a, hta, hapos⟩ := ha
  obtain ⟨tick, rc0, fills0, raises0⟩ := inp
  simp only at hta hr
  subst hta
  subst hr
  simp only [snipeIter] at h
  generalize hL : round_price (a * (1 + ladderSlippage st s.ladder_idx)) inst.price_precision = L at h
  generalize hQ : promoteQty (round_qty ((b - s.filled_value) / L) inst.qty_step) inst.min_qty = Q at h
  split at h
  · rename_i hle
    exact absurd hle (not_le.mpr hapos)
  · split at h
    · simp at h
    · split at h
      · simp at h
      · split at h
        · simp at h
        · injection h with h
          subst h
          rw [(ladderAdvance_fields _ _).2.1, (accumFills_orders _ _).2,
            placeOrder_no_raise _ _ _ _ rfl]

/-- A fill re-scan over an empty accumulator changes nothing. -/
lemma accumFills_fills_empty (s : SnipeState) (inp : IterInput)
    (h : inp.fills = []) : accumFills s inp = s := by
  unfold accumFills
  rw [h]
  simp

/-- When no fills arrive in an iteration, the fill accumulators are
unchanged by a continuing iteration. -/
lemma snipeIter_next_fills_empty (b : ℚ) (st : List ℚ) (rps : ℕ) (inst : Instrument)
    (s : SnipeState) (inp : IterInput) (s2 : SnipeState)
    (h : snipeIter b st rps inst s inp = IterOut.next s2)
    (hf : inp.fills = []) :
    s2.filled_qty = s.filled_qty ∧ s2.filled_value = s.filled_value := by
  obtain ⟨tick, rc0, fills0, raises0⟩ := inp
  simp only at hf
  subst hf
  cases tick with
  | none =>
    simp only [snipeIter] at h
    injection h with h
    subst h
    exact ⟨rfl, rfl⟩
  | some a =>
    simp only [snipeIter] at h
    generalize hL : round_price (a * (1 + ladderSlippage st s.ladder_idx)) inst.price_precision = L at h
    generalize hQ : promoteQty (round_qty ((b - s.filled_value) / L) inst.qty_step) inst.min_qty = Q at h
    split at h
    · injection h with h
      subst h
      exact ⟨rfl, rfl⟩
    · split at h
      · simp at h
      · split at h
        · simp at h
        · split at h
          · simp at h
          · injection h with h
            subst h
            rw [(ladderAdvance_fields _ _).2.2.1, (ladderAdvance_fields _ _).2.2.2.1,
              accumFills_fills_empty _ _ rfl]
            exact ⟨(placeOrder_filled _ _ _ _).1, (placeOrder_filled _ _ _ _).2.1⟩

/-- General preservation principle for the ladder loop: any state predicate
preserved by continuing iterations (under the loop guards) transfers from
the entry state to the final state. -/
lemma snipeLoop_inv (b : ℚ) (st : List ℚ) (rps mo : ℕ) (inst : Instrument)
    (env : ℕ → IterInput) (P : SnipeState → Prop)
    (hP : ∀ s i s2, s.filled_value < b → s.orders_sent < mo →
      snipeIter b st rps inst s (env i) = IterOut.next s2 → P s → P s2) :
    ∀ fuel i s out, snipeLoop b st rps mo inst env i s fuel = some out → P s → P out.1 := by
  intro fuel
  induction fuel with
  | zero =>
    intro i s out h
    exact absurd h (by simp [snipeLoop])
  | succ fuel ih =>
    intro i s out h hs
    simp only [snipeLoop] at h
    split at h
    · injection h with h
      subst h
      exact hs
    · split at h
      · injection h with h
        subst h
        exact hs
      · rename_i hb hcap
        split at h
        · injection h with h
          subst h
          exact hs
        · rename_i s2 heq
          exact ih (i + 1) s2 out h
            (hP s i s2 (not_le.mp hb) (not_le.mp hcap) heq hs)

/-- The loop returns `budgetFilled` only with the budget actually filled and
`orderCap` only with the order cap actually reached. -/
lemma snipeLoop_stop_facts (b : ℚ) (st : List ℚ) (rps mo : ℕ) (inst : Instrument)
    (env : ℕ → IterInput) :
    ∀ fuel i s out, snipeLoop b st rps mo inst env i s fuel = some out →
      (out.2 = StopReason.budgetFilled → b ≤ out.1.filled_value) ∧
      (out.2 = StopReason.orderCap → mo ≤ out.1.orders_sent) := by
  intro fuel
  induction fuel with
  | zero =>
    intro i s out h
    exact absurd h (by simp [snipeLoop])
  | succ fuel ih =>
    intro i s out h
    simp only [snipeLoop] at h
    split at h
    · rename_i hb
      injection h with h
      subst h
      exact ⟨fun _ => hb, fun hc => absurd hc (by simp)⟩
    · split at h
      · rename_i hcap
        injection h with h
        subst h
        exact ⟨fun hc => absurd hc (by simp), fun _ => hcap⟩
      · split at h
        · rename_i r heq
          injection h with h
          subst h
          rcases snipeIter_stop_reason _ _ _ _ _ _ _ heq with hr | hr <;>
            subst hr <;>
            exact ⟨fun hc => absurd hc (by simp), fun hc => absurd hc (by simp)⟩
        · exact ih (i + 1) _ out h

/-- With a live positive ask and a non-raising `place_order` in every
iteration, `max_orders + 1` iterations always suffice for the loop to
leave. -/
lemma snipeLoop_term (b : ℚ) (st : List ℚ) (rps mo : ℕ) (inst : Instrument)
    (env : ℕ → IterInput)
    (ha : ∀ i, ∃ a, (env i).ticker_ask = some a ∧ 0 < a)
    (hr : ∀ i, (env i).place_order_raises = false) :
    ∀ fuel i s, mo - s.orders_sent < fuel →
      ∃ out, snipeLoop b st rps mo inst env i s fuel = some out := by
  intro fuel
  induction fuel with
  | zero =>
    intro i s h
    omega
  | succ fuel ih =>
    intro i s hfuel
    by_cases hb : b ≤ s.filled_value
    · refine ⟨(s, StopReason.budgetFilled), ?_⟩
      simp only [snipeLoop]
      rw [if_pos hb]
    · by_cases hcap : mo ≤ s.orders_sent
      · refine ⟨(s, StopReason.orderCap), ?_⟩
        simp only [snipeLoop]
        rw [if_neg hb, if_pos hcap]
      · cases hit : snipeIter b st rps inst s (env i) with
        | stop r =>
          refine ⟨(s, r), ?_⟩
          simp only [snipeLoop]
          rw [if_neg hb, if_neg hcap, hit]
        | next s2 =>
          have hinc := snipeIter_next_increment _ _ _ _ _ _ _ hit (ha i) (hr i)
          obtain ⟨out, hout⟩ := ih (i + 1) s2 (by omega)
          refine ⟨out, ?_⟩
          simp only [snipeLoop]
          rw [if_neg hb, if_neg hcap, hit]
          exact hout

/-- The exchange return code influences nothing but the log line: an
iteration behaves identically under any two return codes, up to the code
recorded in the order log. -/
lemma snipeIter_ret_code_irrelevant (b : ℚ) (st : List ℚ) (rps : ℕ) (inst : Instrument)
    (s : SnipeState) (tick : Option ℚ) (fills0 : List (ℚ × ℚ)) (raises0 : Bool)
    (rc1 rc2 : ℤ) :
    scrubIter (snipeIter b st rps inst s ⟨tick, rc1, fills0, raises0⟩)
      = scrubIter (snipeIter b st rps inst s ⟨tick, rc2, fills0, raises0⟩) := by
  cases tick with
  | none => rfl
  | some a =>
    simp only [snipeIter]
    generalize round_price (a * (1 + ladderSlippage st s.ladder_idx)) inst.price_precision = L
    generalize promoteQty (round_qty ((b - s.filled_value) / L) inst.qty_step) inst.min_qty = Q
    split
    · rfl
    · split
      · rfl
      · split
        · rfl
        · split
          · rfl
          · cases raises0 with
            | true => rfl
            | false =>
              simp only [scrubIter, scrubState, scrubOrder, placeOrder, accumFills,
                ladderAdvance]
              norm_num
              split <;> simp [List.map_append, scrubOrder]

/-- Every final order log carries the successive counter values as link
ids. -/
lemma snipeLoop_link_ids (b : ℚ) (st : List ℚ) (rps mo fuel i : ℕ) (inst : Instrument)
    (env : ℕ → IterInput) (out : SnipeState × StopReason)
    (hrun : snipeLoop b st rps mo inst env i initSnipeState fuel = some out) :
    out.1.orders.map OrderReq.link_idx = List.range out.1.orders.length := by
  have h := snipeLoop_inv b st rps mo inst env
    (fun s => s.orders.map OrderReq.link_idx = List.range s.orders.length ∧
      s.orders_sent = s.orders.length)
    ?_ fuel i initSnipeState out hrun ⟨rfl, rfl⟩
  · exact h.1
  · intro s j s2 _ _ heq hs
    rcases snipeIter_next_cases _ _ _ _ _ _ _ heq with ⟨h1, h2⟩ | ⟨h1, q, p, _, _, h2⟩
    · rw [h1, h2]
      exact hs
    · rw [h1, h2]
      constructor
      · rw [List.map_append, List.length_append, hs.1, hs.2]
        simp [List.range_succ]
      · rw [List.length_append, hs.2]
        simp

/-- Running the manager accumulates exactly the persisted subscription
lists and tracks authentication as auth-success-since-last-close. -/
lemma ws_foldl_fields (events : List WsEvent) :
    ∀ s : WsState,
      (events.foldl (fun s e => (wsStep s e).1) s).public_subscriptions
        = s.public_subscriptions ++ allPubTopics events ∧
      (events.foldl (fun s e => (wsStep s e).1) s).private_subscriptions
        = s.private_subscriptions ++ allPrivTopics events ∧
      (events.foldl (fun s e => (wsStep s e).1) s).private_authenticated
        = authAfter s.private_authenticated events := by
  induction events with
  | nil =>
    intro s
    simp [allPubTopics, allPrivTopics, authAfter]
  | cons e es ih =>
    intro s
    cases e with
    | openPub => simpa [wsStep, allPubTopics, allPrivTopics, authAfter] using ih _
    | openPriv => simpa [wsStep, allPubTopics, allPrivTopics, authAfter] using ih _
    | authAck ok =>
      cases ok <;>
        simpa [wsStep, allPubTopics, allPrivTopics, authAfter] using ih _
    | closePub => simpa [wsStep, allPubTopics, allPrivTopics, authAfter] using ih _
    | closePriv => simpa [wsStep, allPubTopics, allPrivTopics, authAfter] using ih _
    | subPubCall ts =>
      have := ih { s with public_subscriptions := s.public_subscriptions ++ ts }
      simpa [wsStep, allPubTopics, allPrivTopics, authAfter] using this
    | subPrivCall ts =>
      have := ih { s with private_subscriptions := s.private_subscriptions ++ ts }
      simpa [wsStep, allPubTopics, allPrivTopics, authAfter] using this

/-- Scanning a history in two pieces. -/
lemma authAfter_append (es1 es2 : List WsEvent) :
    ∀ b, authAfter b (es1 ++ es2) = authAfter (authAfter b es1) es2 := by
  induction es1 with
  | nil =>
    intro b
    rfl
  | cons e es ih =>
    intro b
    cases e with
    | authAck ok => cases ok <;> simp [authAfter, ih]
    | closePriv => simp [authAfter, ih]
    | openPub => simp [authAfter, ih]
    | openPriv => simp [authAfter, ih]
    | closePub => simp [authAfter, ih]
    | subPubCall ts => simp [authAfter, ih]
    | subPrivCall ts => simp [authAfter, ih]

/-! ## Claim theorems -/

/-- Claim C1 counterexample: for a Sell-side position with entry price 10,
exit price 12 and exit quantity 1, `_handle_exit` records
`gross_pnl = exit_value - entry_value = 2`, while the spec's side-signed
gross P&L would be `entry_value - exit_value = -2`.  The recorded value is
not signed by side. -/
theorem C1_counterexample :
    (handle_exit_trade posSellC1 1 12 0 0).gross_pnl ≠
      specGrossPnl posSellC1.side (handle_exit_trade posSellC1 1 12 0 0).entry_value
        (handle_exit_trade posSellC1 1 12 0 0).exit_value := by
  norm_num [handle_exit_trade, posSellC1, mkPosition, specGrossPnl]
  rw [if_neg (by decide)]
  norm_num

/-- Claim C1 (amended): for every position exit handled by `_handle_exit`
with exit quantity `qty`, exit price `exit_price` and entry price
`pos.entry_price`, the appended `TradeResult` satisfies
`entry_value = qty * entry_price`, `exit_value = qty * exit_price`,
`gross_pnl = exit_value - entry_value` regardless of side (which agrees
with the spec's side-signed value exactly for Buy positions — the only
side the orchestrator opens), `fees = (entry_value + exit_value) *
takerFeeRate`, `net_pnl = gross_pnl - fees` exactly, and
`roi_pct = net_pnl / entry_value * 100` (`0` when `entry_value` is not
positive). -/
theorem C1_exit_pnl_amended (s : PMState) (symbol : String) (pos : Position)
    (qty exit_price exit_time taker_pct : ℚ) (t : TradeResult)
    (hpos : dictGet s.positions symbol = some pos)
    (ht : t = handle_exit_trade pos qty exit_price exit_time taker_pct) :
    (handle_exit s symbol qty exit_price exit_time taker_pct).1.completed_trades
        = s.completed_trades ++ [t] ∧
    t.entry_value = qty * pos.entry_price ∧
    t.exit_value = qty * exit_price ∧
    t.gross_pnl = t.exit_value - t.entry_value ∧
    (pos.side = "Buy" → t.gross_pnl = specGrossPnl pos.side t.entry_value t.exit_value) ∧
    t.fees = (t.entry_value + t.exit_value) * (taker_pct / 100) ∧
    t.net_pnl = t.gross_pnl - t.fees ∧
    t.roi_pct = (if 0 < t.entry_value then t.net_pnl / t.entry_value * 100 else 0) := by
  subst ht
  refine ⟨?_, ?_, ?_, ?_, ?_, ?_, ?_, ?_⟩
  · simp [handle_exit, hpos]
  · simp [handle_exit_trade]
  · simp [handle_exit_trade]
  · simp [handle_exit_trade]
  · intro hside
    simp [handle_exit_trade, specGrossPnl, hside]
  · simp [handle_exit_trade]
  · simp [handle_exit_trade]
  · simp [handle_exit_trade]

/-- Witness for C1: the amended statement instantiated at scenario C
(entry 10, exit 10.5, qty 5, taker fee 0.055%). -/
theorem C1_witness : tC1w.net_pnl = tC1w.gross_pnl - tC1w.fees :=
  (C1_exit_pnl_amended pmC1w "BARUSDT" posC1w 5 (21/2) 0 (11/200) tC1w
    (by simp [pmC1w, dictGet]) rfl).2.2.2.2.2.2.1

/-- Claim C2: after feeding any sequence of clock-offset samples to the pong
handler, the retained window is a FIFO of at most the last 10 samples (the
11th sample evicts the oldest), the stored `clock_offset_ms` equals the
median of that window, and `get_bybit_time_ms` reads local time plus that
median. -/
theorem C2_offset_median (xs : List ℤ) (now : ℤ) :
    (clockRun xs).1 = xs.rtake 10 ∧
    (clockRun xs).2 = medianInt (xs.rtake 10) ∧
    get_bybit_time_ms now (clockRun xs).2 = now + medianInt (xs.rtake 10) := by
  have hmed : (clockRun xs).2 = medianInt (xs.rtake 10) := by
    induction xs using List.reverseRecOn with
    | nil => rfl
    | append_singleton ys x ih =>
      rw [clockRun_concat]
      show ((sortInts (pushSample (clockRun ys).1 x)).getD
        ((pushSample (clockRun ys).1 x).length / 2) 0) = _
      rw [clockRun_window, pushSample_rtake]
      rfl
  refine ⟨clockRun_window xs, hmed, ?_⟩
  rw [get_bybit_time_ms, hmed]

/-- Spec scenario D, as a concrete check of the C2 model: feeding the 11
samples [10,12,11,9,50,10,11,9,10,11,12] evicts the first; the stored
offset is the median (upper middle) of the remaining 10, namely 11. -/
lemma clockRun_scenarioD :
    (clockRun [10, 12, 11, 9, 50, 10, 11, 9, 10, 11, 12]).1
        = [12, 11, 9, 50, 10, 11, 9, 10, 11, 12] ∧
    (clockRun [10, 12, 11, 9, 50, 10, 11, 9, 10, 11, 12]).2 = 11 := by
  constructor <;> decide

/-- Claim C3: for every run of `execute_snipe` that completes without an
internal exception (empty `error`), the returned `SnipeResult` has
`success = true` exactly when `filled_qty > 0`, and on success
`avg_entry` is the volume-weighted `filled_value / filled_qty`; moreover
when no fills ever arrive and the run ends having sent `max_orders`
orders, the result has `success = false`, empty `error` and
`filled_qty = 0`. -/
theorem C3_snipe_result (symbol : String) (b : ℚ) (st : List ℚ) (rps mo fuel : ℕ)
    (inst : Instrument) (env : ℕ → IterInput) (r : SnipeResult)
    (hrun : execute_snipe symbol b st rps mo inst env fuel = some r)
    (hok : r.error = "") :
    ((r.success = true) ↔ (0 < r.filled_qty)) ∧
    (r.success = true → r.avg_entry = r.filled_value / r.filled_qty) ∧
    ((∀ j, (env j).fills = []) → r.orders_sent = mo →
      r.success = false ∧ r.filled_qty = 0 ∧ r.error = "") := by
  unfold execute_snipe at hrun
  cases hloop : snipeLoop b st rps mo inst env 0 initSnipeState fuel with
  | none =>
    rw [hloop] at hrun
    simp at hrun
  | some out =>
    rw [hloop] at hrun
    simp only [Option.map] at hrun
    injection hrun with hrun
    by_cases hex : out.2 = StopReason.raised
    · rw [← hrun, mkSnipeResult, if_pos hex] at hok
      simp at hok
    · rw [← hrun]
      simp only [mkSnipeResult, if_neg hex]
      refine ⟨by simp, by intro hs; simp only [decide_eq_true_eq] at hs; rw [if_pos hs], ?_⟩
      intro hf _
      have hzero : out.1.filled_qty = 0 ∧ out.1.filled_value = 0 := by
        refine snipeLoop_inv b st rps mo inst env
          (fun s => s.filled_qty = 0 ∧ s.filled_value = 0) ?_ fuel 0 initSnipeState out hloop
          ⟨rfl, rfl⟩
        intro s j s2 _ _ heq hs
        have := snipeIter_next_fills_empty b st rps inst s (env j) s2 heq (hf j)
        exact ⟨this.1.trans hs.1, this.2.trans hs.2⟩
      refine ⟨?_, hzero.1, trivial⟩
      rw [hzero.1]
      simp

/-- Witness for C3: the concrete no-fill run at order cap 2 hits the cap
with no fills, and the theorem yields `success = false`, `filled_qty = 0`,
empty `error`. -/
theorem C3_witness : rB3.success = false ∧ rB3.filled_qty = 0 ∧ rB3.error = "" :=
  (C3_snipe_result "NEWUSDT" 100 [1/2000] 3 2 4 instA envB rB3
    (by
      norm_num [execute_snipe, snipeLoop, snipeIter, envB, instA, initSnipeState,
        ladderSlippage, promoteQty, placeOrder, accumFills, ladderAdvance,
        round_qty, round_price, round_eq, Int.floor_eq_iff, mkSnipeResult, rB3]
      decide)
    rfl).2.2 (fun _ => rfl) rfl

/-- Claim C4: every order actually submitted by the ladder loop has a
quantity at least the instrument minimum quantity (the budget-derived
quantity is promoted up when smaller) and a notional at least the
instrument minimum notional — a candidate below the minimum notional is
never submitted, the iteration stops instead
(`snipeIter_stop_reason` / `StopReason.minNotional`). -/
theorem C4_order_minimums (b : ℚ) (st : List ℚ) (rps mo fuel i : ℕ)
    (inst : Instrument) (env : ℕ → IterInput) (out : SnipeState × StopReason)
    (hrun : snipeLoop b st rps mo inst env i initSnipeState fuel = some out)
    (o : OrderReq) (ho : o ∈ out.1.orders) :
    inst.min_qty ≤ o.qty ∧ inst.min_notional ≤ o.qty * o.price := by
  refine snipeLoop_inv b st rps mo inst env
    (fun s => ∀ o2 ∈ s.orders, inst.min_qty ≤ o2.qty ∧ inst.min_notional ≤ o2.qty * o2.price)
    ?_ fuel i initSnipeState out hrun ?_ o ho
  · intro s j s2 _ _ heq hs o2 ho2
    rcases snipeIter_next_cases _ _ _ _ _ _ _ heq with ⟨_, h2⟩ | ⟨_, q, p, hq, hp, h2⟩
    · exact hs o2 (h2 ▸ ho2)
    · rw [h2] at ho2
      rcases List.mem_append.mp ho2 with hin | hin
      · exact hs o2 hin
      · have := List.mem_singleton.mp hin
        subst this
        exact ⟨hq, hp⟩
  · intro o2 ho2
    simp [initSnipeState] at ho2

/-- Witness for C4: the concrete promoted order satisfies both instrument
minimums. -/
theorem C4_witness :
    instA.min_qty ≤ ordC4.qty ∧ instA.min_notional ≤ ordC4.qty * ordC4.price :=
  C4_order_minimums 100 [1/2000] 3 1 3 0 instA envC4 outC4
    (by
      norm_num [snipeLoop, snipeIter, envC4, instA, initSnipeState,
        ladderSlippage, promoteQty, placeOrder, accumFills, ladderAdvance,
        round_qty, round_price, round_eq, Int.floor_eq_iff, outC4, ordC4])
    ordC4 (by simp [outC4])

/-- Claim C5 counterexample: under scenario A (budget 100, single slippage
step 0.05%, ask 1.00, qty_step 1, min_qty 1) the quantity of the first and
only submitted order is 99, not the claimed 100:
`qty = floor(100 / 1.0005) = 99`. -/
theorem C5_counterexample :
    ((snipeLoop 100 [1/2000] 3 100 instA envA 0 initSnipeState 5).map
        (fun out => out.1.orders.map OrderReq.qty)) ≠ some [100] := by
  norm_num [snipeLoop, snipeIter, envA, instA, initSnipeState,
    ladderSlippage, promoteQty, placeOrder, accumFills, ladderAdvance,
    round_qty, round_price, round_eq, Int.floor_eq_iff]

/-- Claim C5 (amended): under scenario A the first order is qty 99 at limit
price 1.0005; when it fully fills, the run ends with success,
`avg_entry = 1.0005`, `filled_value = 99.0495` (= 99 × 1.0005) and
`orders_sent = 1` (the follow-up order would be below the minimum
notional, so the ladder stops). -/
theorem C5_amended_scenarioA :
    ((snipeLoop 100 [1/2000] 3 100 instA envA 0 initSnipeState 5).map
        (fun out => out.1.orders.map (fun o => (o.qty, o.price))))
      = some [(99, 2001/2000)] ∧
    execute_snipe "NEWUSDT" 100 [1/2000] 3 100 instA envA 5
      = some ⟨"NEWUSDT", true, 99, 198099/2000, 2001/2000, 1, [(99, 2001/2000)], ""⟩ := by
  constructor <;>
    · norm_num [execute_snipe, snipeLoop, snipeIter, envA, instA, initSnipeState,
        ladderSlippage, promoteQty, placeOrder, accumFills, ladderAdvance,
        round_qty, round_price, round_eq, Int.floor_eq_iff, mkSnipeResult]
      all_goals decide

/-- Claim C6 counterexample: when no ticker ever becomes available, the
ladder loop never terminates — the no-ticker branch sleeps and retries
without consuming any of the loop's bounds, so no amount of fuel makes the
loop return.  The claimed "for every input, the loop terminates" is false. -/
theorem C6_counterexample :
    ¬ ∃ fuel, (snipeLoop 100 [1/2000] 3 100 instA envNoTick 0 initSnipeState fuel).isSome = true := by
  rintro ⟨fuel, hf⟩
  suffices hall : ∀ f i, snipeLoop 100 [1/2000] 3 100 instA envNoTick i initSnipeState f = none by
    rw [hall fuel 0] at hf
    simp at hf
  intro f
  induction f with
  | zero =>
    intro i
    rfl
  | succ f ih =>
    intro i
    have hstep : snipeIter 100 [1/2000] 3 instA initSnipeState (envNoTick i)
        = IterOut.next initSnipeState := rfl
    simp only [snipeLoop, hstep]
    norm_num [initSnipeState]
    exact ih (i + 1)

/-- Claim C6 (amended): the no-ticker/bad-ask branch retries without bound,
so termination needs the environment to eventually supply data; under the
assumption that every iteration sees a positive ask and a non-raising
`place_order`, the loop terminates within `max_orders + 1` iterations, and
the exit is exactly one of: budget filled (`filled_value >= budget`),
order cap reached (`orders_sent = max_orders`), the minimum-notional
break, or a Python exception from degenerate parameters (empty ladder
list or zero rounded limit price). -/
theorem C6_terminates_amended (b : ℚ) (st : List ℚ) (rps mo : ℕ) (inst : Instrument)
    (env : ℕ → IterInput)
    (ha : ∀ i, ∃ a, (env i).ticker_ask = some a ∧ 0 < a)
    (hr : ∀ i, (env i).place_order_raises = false) :
    ∃ out, snipeLoop b st rps mo inst env 0 initSnipeState (mo + 1) = some out ∧
      (out.2 = StopReason.budgetFilled → b ≤ out.1.filled_value) ∧
      (out.2 = StopReason.orderCap → out.1.orders_sent = mo) := by
  obtain ⟨out, hout⟩ :=
    snipeLoop_term b st rps mo inst env ha hr (mo + 1) 0 initSnipeState
      (by simp [initSnipeState])
  have hfacts := snipeLoop_stop_facts b st rps mo inst env (mo + 1) 0 initSnipeState out hout
  have hle : out.1.orders_sent ≤ mo := by
    refine snipeLoop_inv b st rps mo inst env (fun s => s.orders_sent ≤ mo) ?_
      (mo + 1) 0 initSnipeState out hout (by simp [initSnipeState])
    intro s j s2 _ hcap heq _
    rcases snipeIter_next_cases _ _ _ _ _ _ _ heq with ⟨h1, _⟩ | ⟨h1, _⟩ <;> omega
  exact ⟨out, hout, hfacts.1, fun hc => le_antisymm hle (hfacts.2 hc)⟩

/-- Witness for C6: the amended termination statement at the concrete
always-live environment `envB` with order cap 2. -/
theorem C6_witness :
    ∃ out, snipeLoop 100 [1/2000] 3 2 instA envB 0 initSnipeState 3 = some out ∧
      (out.2 = StopReason.budgetFilled → 100 ≤ out.1.filled_value) ∧
      (out.2 = StopReason.orderCap → out.1.orders_sent = 2) :=
  C6_terminates_amended 100 [1/2000] 3 2 instA envB
    (fun _ => ⟨1, rfl, by norm_num⟩) (fun _ => rfl)

/-- Claim C7 counterexample: a second `add_position` for a symbol that
already has an open position is neither rejected (the state changes: the
stored position is silently replaced) nor flagged (the call emits only an
info-level log, no warning or error). -/
theorem C7_counterexample :
    ¬ ((add_position pmC7a "AUSDT" "Buy" 2 20 1).1 = pmC7a ∨
       LogLevel.warn ∈ (add_position pmC7a "AUSDT" "Buy" 2 20 1).2 ∨
       LogLevel.error ∈ (add_position pmC7a "AUSDT" "Buy" 2 20 1).2) := by
  rintro (h | h | h)
  · have h2 := congrArg PMState.positions h
    norm_num [add_position, pmC7a, dictSet, mkPosition, Prod.ext_iff,
      Position.mk.injEq] at h2
  · simp [add_position] at h
  · simp [add_position] at h

/-- Claim C7 (amended): `PositionManager` does maintain at most one open
position per symbol (the key set of the position map stays duplicate-free,
and removal by `_handle_exit` preserves this), but a second
`add_position` call for an already-tracked symbol silently overwrites the
stored position: the new position becomes the retrievable one and the call
emits only an info-level log. -/
theorem C7_amended_single_position (s : PMState) (symbol side : String)
    (qty price now exq exp ext fee : ℚ)
    (h : (s.positions.map Prod.fst).Nodup) :
    (((add_position s symbol side qty price now).1.positions.map Prod.fst).Nodup) ∧
    (∀ k : String,
      ((add_position s symbol side qty price now).1.positions.map Prod.fst).count k ≤ 1) ∧
    (((handle_exit s symbol exq exp ext fee).1.positions.map Prod.fst).Nodup) ∧
    dictGet (add_position s symbol side qty price now).1.positions symbol
      = some (mkPosition symbol side qty price now) ∧
    (add_position s symbol side qty price now).2 = [LogLevel.info] := by
  have hset : (((add_position s symbol side qty price now).1.positions.map Prod.fst).Nodup) := by
    simpa [add_position] using
      nodup_keys_dictSet s.positions symbol (mkPosition symbol side qty price now) h
  refine ⟨hset, ?_, ?_, ?_, rfl⟩
  · intro k
    exact List.nodup_iff_count_le_one.mp hset k
  · unfold handle_exit
    cases hd : dictGet s.positions symbol with
    | none => simpa using h
    | some pos => simpa using nodup_keys_dictErase s.positions symbol h
  · simpa [add_position] using
      dictGet_dictSet s.positions symbol (mkPosition symbol side qty price now)

/-- Witness for C7: the amended statement instantiated at the concrete
double-add of `pmC7a` — the second add overwrites the stored position. -/
theorem C7_witness :
    dictGet (add_position pmC7a "AUSDT" "Buy" 2 20 1).1.positions "AUSDT"
      = some (mkPosition "AUSDT" "Buy" 2 20 1) :=
  (C7_amended_single_position pmC7a "AUSDT" "Buy" 2 20 1 0 0 0 0
    (by simp [pmC7a, add_position, dictSet])).2.2.2.1

/-- Claim C8: order rejection by the exchange affects nothing but the log —
the iteration proceeds identically under any return code (first
conjunct), a completed submission increments the order counter and logs
the order regardless of the code (second conjunct, note no premise on the
return code), and the link ids of submitted orders are the strictly
increasing counter values, so no order is ever retried under the same
correlation id (third conjunct). -/
theorem C8_rejection_counted (b : ℚ) (st : List ℚ) (rps mo fuel i : ℕ)
    (inst : Instrument) (s s2 : SnipeState) (tick : Option ℚ)
    (fills0 : List (ℚ × ℚ)) (raises0 : Bool) (rc1 rc2 : ℤ)
    (env : ℕ → IterInput) (out : SnipeState × StopReason) :
    (scrubIter (snipeIter b st rps inst s ⟨tick, rc1, fills0, raises0⟩)
      = scrubIter (snipeIter b st rps inst s ⟨tick, rc2, fills0, raises0⟩)) ∧
    (snipeIter b st rps inst s ⟨tick, rc1, fills0, raises0⟩ = IterOut.next s2 →
      (∃ a, tick = some a ∧ 0 < a) → raises0 = false →
      s2.orders_sent = s.orders_sent + 1 ∧
      s2.orders.map OrderReq.link_idx = s.orders.map OrderReq.link_idx ++ [s.orders_sent]) ∧
    (snipeLoop b st rps mo inst env i initSnipeState fuel = some out →
      out.1.orders.map OrderReq.link_idx = List.range out.1.orders.length ∧
      (out.1.orders.map OrderReq.link_idx).Nodup) := by
  refine ⟨snipeIter_ret_code_irrelevant b st rps inst s tick fills0 raises0 rc1 rc2, ?_, ?_⟩
  · intro h ha hr
    have hinc := snipeIter_next_increment _ _ _ _ _ _ _ h ha hr
    refine ⟨hinc, ?_⟩
    rcases snipeIter_next_cases _ _ _ _ _ _ _ h with ⟨h1, _⟩ | ⟨_, q, p, _, _, h2⟩
    · omega
    · rw [h2]
      simp
  · intro hrun
    have hlink := snipeLoop_link_ids b st rps mo fuel i inst env out hrun
    exact ⟨hlink, hlink ▸ List.nodup_range _⟩

/-- Witness for C8: a concrete iteration whose order is rejected
(return code 10001) still increments the counter and logs the order under
link id 0. -/
theorem C8_witness :
    s2Rej.orders_sent = initSnipeState.orders_sent + 1 ∧
    s2Rej.orders.map OrderReq.link_idx
      = initSnipeState.orders.map OrderReq.link_idx ++ [initSnipeState.orders_sent] :=
  (C8_rejection_counted 100 [1/2000] 3 1 1 0 instA initSnipeState s2Rej (some 1) [] false
      10001 0 envB (initSnipeState, StopReason.orderCap)).2.1
    (by
      norm_num [snipeIter, instA, initSnipeState, ladderSlippage, promoteQty,
        placeOrder, accumFills, ladderAdvance, round_qty, round_price, round_eq,
        Int.floor_eq_iff, s2Rej])
    ⟨1, rfl, by norm_num⟩ rfl

/-- Claim C9: the manager persists the full subscription set of each stream
(first conjunct); a (re)connect of the public stream replays the entire
current set, and an auth-success acknowledgment on the private stream
replays the entire current private set (second and third conjuncts); the
private `on_open` sends nothing but the auth request (fourth conjunct);
any private subscribe message is sent only with authentication completed
since the last private-stream close (fifth conjunct), the flag tracking
exactly that (sixth conjunct). -/
theorem C9_reconnect_replay (events : List WsEvent) (e : WsEvent) (ts : List String) :
    ((wsRun events).public_subscriptions = allPubTopics events ∧
     (wsRun events).private_subscriptions = allPrivTopics events) ∧
    ((wsRun events).public_subscriptions ≠ [] →
      (wsStep (wsRun events) WsEvent.openPub).2
        = [WsOut.subPubMsg (allPubTopics events)]) ∧
    ((wsRun events).private_subscriptions ≠ [] →
      (wsStep (wsRun events) (WsEvent.authAck true)).2
        = [WsOut.subPrivMsg (allPrivTopics events)]) ∧
    ((wsStep (wsRun events) WsEvent.openPriv).2 = [WsOut.authReq]) ∧
    (WsOut.subPrivMsg ts ∈ (wsStep (wsRun events) e).2 →
      authSinceClose (events ++ [e]) = true) ∧
    ((wsRun events).private_authenticated = authSinceClose events) := by
  have hf := ws_foldl_fields events wsInit
  have hpub : (wsRun events).public_subscriptions = allPubTopics events := by
    simpa [wsRun, wsInit] using hf.1
  have hpriv : (wsRun events).private_subscriptions = allPrivTopics events := by
    simpa [wsRun, wsInit] using hf.2.1
  have hauth : (wsRun events).private_authenticated = authSinceClose events := by
    simpa [wsRun, wsInit, authSinceClose] using hf.2.2
  refine ⟨⟨hpub, hpriv⟩, ?_, ?_, rfl, ?_, hauth⟩
  · intro hne
    simp only [wsStep]
    rw [if_neg (by simpa [hpub] using hne), hpub]
  · intro hne
    simp only [wsStep, if_true]
    rw [if_neg (by simpa [hpriv] using hne), hpriv]
  · intro h
    cases e with
    | openPub =>
      simp only [wsStep] at h
      split at h <;> simp at h
    | openPriv => simp [wsStep] at h
    | authAck ok =>
      cases ok with
      | true =>
        rw [authSinceClose, authAfter_append]
        rfl
      | false => simp [wsStep] at h
    | closePub => simp [wsStep] at h
    | closePriv => simp [wsStep] at h
    | subPubCall ts2 =>
      simp only [wsStep] at h
      split at h <;> simp at h
    | subPrivCall ts2 =>
      simp only [wsStep] at h
      split at h
      · rename_i hc
        rw [authSinceClose, authAfter_append]
        simp only [authAfter]
        rw [← authSinceClose, ← hauth]
        exact hc
      · simp at h

/-- Witness for C9: a public reconnect after the concrete history replays
the full persisted public subscription set. -/
theorem C9_witness :
    (wsStep (wsRun eventsC9) WsEvent.openPub).2
      = [WsOut.subPubMsg (allPubTopics eventsC9)] :=
  (C9_reconnect_replay eventsC9 WsEvent.openPub []).2.1 (by decide)

/-- Claim C10: `get_total_pnl` counts a zero-net trade among the losers
(winners are strictly positive, losers are `net_pnl <= 0`, and the two
partition the journal), and an empty journal yields `win_rate = 0` rather
than a division failure. -/
theorem C10_pnl_summary (trades : List TradeResult) (t : TradeResult) :
    (get_total_pnl trades).winners + (get_total_pnl trades).losers
        = (get_total_pnl trades).total_trades ∧
    (t ∈ trades → t.net_pnl = 0 →
      t ∈ trades.filter (fun t2 => decide (t2.net_pnl ≤ 0)) ∧
      t ∉ trades.filter (fun t2 => decide (0 < t2.net_pnl))) ∧
    (trades = [] → (get_total_pnl trades).win_rate = 0) := by
  refine ⟨?_, ?_, ?_⟩
  · simpa [get_total_pnl] using length_filter_pos_add_nonpos trades
  · intro hm h0
    constructor
    · rw [List.mem_filter]
      exact ⟨hm, by simp [h0]⟩
    · rw [List.mem_filter]
      simp [h0]
  · intro h
    subst h
    simp [get_total_pnl]

/-- Witness for C10: a zero-net trade is classified as a loser, not a winner. -/
theorem C10_witness :
    tzC10 ∈ [tzC10].filter (fun t2 => decide (t2.net_pnl ≤ 0)) ∧
    tzC10 ∉ [tzC10].filter (fun t2 => decide (0 < t2.net_pnl)) :=
  (C10_pnl_summary [tzC10] tzC10).2.1 (by simp) rfl
